import Mathlib

/-!
# Verification of the localscan host-discovery core

Shallow embedding of the Go sources of `localscan` (scanner/network.go,
scanner/history.go, the scan orchestrator and the `main` driver) together
with proofs of the specified properties of the Diff Engine, the Address
Enumerator, the Probe Cascade, the Scan Orchestrator and the History Store.

Modelling conventions:
* An IPv4 address is a `Nat` below `2^32`.  Go keys its sets and maps by the
  dotted-quad rendering `r.IP.String()`; dotted-quad rendering is injective
  on 4-byte addresses, so address keys are modelled by the numeric address
  itself.
* Go slices become `List`; the distinction between a `nil` slice and an
  empty non-nil slice (observable in the persisted JSON) is modelled by
  `Option (List Nat)` for the `OpenPorts` field, `none` standing for `nil`.
* Network and OS effects (ping, TCP dial, UDP reply, the OS ARP cache, DNS
  and vendor lookup) are parameters: a `ProbeEnv` record of oracles.
* The concurrent phase of `Scan` serialises its shared-state updates behind
  one mutex, so its observable effect is a fold over the order in which
  workers reach the critical section; that order is an explicit parameter.
-/

set_option maxHeartbeats 1000000

namespace LocalScan

/-- Embedding of `scanner.ScanResult` (part_001 of the scanner package).
Field defaults are the Go zero values. -/
structure ScanResult where
  ip : Nat
  hostname : String := ""
  mac : String := ""
  vendor : String := ""
  method : String := ""
  openPorts : Option (List Nat) := none
  status : String := ""
deriving DecidableEq, Repr

/-- Embedding of `scanner.historyEntry` (scanner/history.go): the
JSON-serialisable form of a scan result.  It has no status field, and its
`open_ports` field is a plain array (`List`), never absent. -/
structure historyEntry where
  ip : Nat
  hostname : String := ""
  mac : String := ""
  vendor : String := ""
  method : String := ""
  openPorts : List Nat := []
deriving DecidableEq, Repr

/-! ## Address Enumerator (scanner/network.go) -/

/-- The 32-bit CIDR mask with `ones` leading one bits (`net.CIDRMask`). -/
def maskOf (ones : Nat) : Nat := 2 ^ 32 - 2 ^ (32 - ones)

/-- Embedding of `ip.Mask(mask)`: byte-wise AND of a 4-byte address with the
mask, i.e. 32-bit AND. -/
def maskIP (ip ones : Nat) : Nat := ip &&& maskOf ones

/-- Embedding of `(*net.IPNet).Contains`: both the candidate and the network
address are masked and compared. -/
def netContains (netip ones c : Nat) : Bool :=
  c &&& maskOf ones == netip &&& maskOf ones

/-- Embedding of `incIP` (scanner/network.go): byte-wise increment with
carry; incrementing 255.255.255.255 wraps to 0.0.0.0. -/
def incIP (c : Nat) : Nat := (c + 1) % 2 ^ 32

/-- The iteration loop of `HostsInNetwork`:
`for current := cloneIP(ip); network.Contains(current); incIP(current)`.
The while loop is embedded with a fuel argument; `2^32` fuel is an upper
bound on the iteration count (the loop stops no later than when the
address leaves the network block, which has at most `2^31` addresses for a
nonzero prefix, or wraps around once). -/
def hostsLoop (netip ones : Nat) : Nat → Nat → List Nat
  | 0, _ => []
  | fuel + 1, c =>
    if netContains netip ones c then c :: hostsLoop netip ones fuel (incIP c)
    else []

/-- Embedding of `HostsInNetwork` (scanner/network.go): all usable host
addresses of the network, i.e. every address the network contains minus the
network address (first) and the broadcast address (last); prefix length 0
or 32 yields no addresses, as does any block with at most 2 addresses. -/
def HostsInNetwork (ip ones : Nat) : List Nat :=
  let base := maskIP ip ones
  if ones = 0 ∨ ones = 32 then []
  else
    let hosts := hostsLoop base ones (2 ^ 32) base
    if hosts.length > 2 then (hosts.drop 1).dropLast else []

/-! ## Probe Cascade and Scan Orchestrator (scanner package, part_001) -/

/-- Outcome of one TCP dial attempt (`net.DialTimeout` followed by the
`isConnRefused` classification): the connection was accepted, actively
refused, or produced no signal (timeout or any other error). -/
inductive DialOutcome where
  | accepted
  | refused
  | nosignal
deriving DecidableEq, Repr

/-- Oracles for every network and OS effect a scan consults. -/
structure ProbeEnv where
  /-- Outcome of `icmpPing` for an address: system ping exit status zero. -/
  icmp : Nat → Bool
  /-- Outcome of one TCP dial to (address, port). -/
  tcp : Nat → Nat → DialOutcome
  /-- Outcome of `udpCheck` for (address, port): a non-empty reply arrived. -/
  udpReply : Nat → Nat → Bool
  /-- The OS ARP table (`GetARPTable`): address to hardware address. -/
  arp : Nat → Option String

/-- The fixed TCP probe list `tcpPorts` (part_001), in source order.  Note
the order is not ascending (445 precedes 139, 62078 precedes 1883, ...). -/
def tcpPorts : List Nat :=
  [22, 23, 53, 80, 443, 445, 139, 548,
   3389, 5900,
   8080, 8443, 8008, 8009,
   5353,
   7000, 7100,
   9100,
   62078,
   1883, 8883,
   554,
   5000, 5001,
   9090, 3000]

/-- The fixed UDP discovery port list `udpPorts` (part_001). -/
def udpPorts : List Nat := [5353, 1900, 137, 161, 53, 123]

/-- Embedding of `tcpProbe`: walk `tcpPorts` in order; an accepted
connection sets `alive` and appends the port to `openPorts` (a `nil` slice
before the first append, hence the `Option`); a refused connection sets
`alive` only; anything else is no signal. -/
def tcpProbe (env : ProbeEnv) (ip : Nat) : Bool × Option (List Nat) :=
  tcpPorts.foldl
    (fun acc port =>
      match env.tcp ip port with
      | .accepted => (true, some (acc.2.getD [] ++ [port]))
      | .refused => (true, acc.2)
      | .nosignal => acc)
    (false, none)

/-- Embedding of `udpProbe`: true as soon as any discovery port replies. -/
def udpProbe (env : ProbeEnv) (ip : Nat) : Bool :=
  udpPorts.any (fun port => env.udpReply ip port)

/-- Embedding of `detectHost`: run `icmpPing` and `tcpProbe`
unconditionally, then pick the first successful method in the fixed order
ICMP, TCP, UDP; `udpProbe` only runs when both earlier steps failed.  The
open ports found by the TCP sweep are returned whichever method wins. -/
def detectHost (env : ProbeEnv) (ip : Nat) : String × Option (List Nat) :=
  let icmpAlive := env.icmp ip
  let tcpRes := tcpProbe env ip
  if icmpAlive then ("ICMP", tcpRes.2)
  else if tcpRes.1 then ("TCP", tcpRes.2)
  else if udpProbe env ip then ("UDP", tcpRes.2)
  else ("", none)

/-- Instrumented rendering of `detectHost`: identical control flow, but
also returns the list of probe functions that were invoked, in invocation
order.  `icmpPing` and `tcpProbe` are called unconditionally at the top of
the function; `udpProbe` is called only in the third guard, which is
reached only when the ICMP and TCP steps both failed. -/
def detectHostTraced (env : ProbeEnv) (ip : Nat) :
    (String × Option (List Nat)) × List String :=
  let icmpAlive := env.icmp ip
  let tcpRes := tcpProbe env ip
  if icmpAlive then (("ICMP", tcpRes.2), ["icmpPing", "tcpProbe"])
  else if tcpRes.1 then (("TCP", tcpRes.2), ["icmpPing", "tcpProbe"])
  else if udpProbe env ip then
    (("UDP", tcpRes.2), ["icmpPing", "tcpProbe", "udpProbe"])
  else (("", none), ["icmpPing", "tcpProbe", "udpProbe"])

/-- The active-probe phase of `Scan` (part_001): workers pop job indices
and, for a successful `detectHost`, insert the address into the shared
result list under the mutex unless it is already in `foundSet`.  The mutex
serialises these critical sections, so the phase is a fold over `order`,
the order in which workers reach the critical section (an arbitrary
permutation of the job indices).  Returns (foundSet, results). -/
def scanPhase1 (hosts : List Nat) (env : ProbeEnv) (order : List Nat) :
    List Nat × List ScanResult :=
  order.foldl
    (fun (st : List Nat × List ScanResult) idx =>
      match hosts[idx]? with
      | none => st
      | some ip =>
        let res := detectHost env ip
        if res.1 ≠ "" then
          if ip ∈ st.1 then st
          else (ip :: st.1,
                st.2 ++ [{ ip := ip, method := res.1, openPorts := res.2 }])
        else st)
    ([], [])

/-- The link-layer fallback phase of `Scan`: for every enumerated address
not already in `foundSet`, a non-empty ARP-table entry yields a synthetic
result with method "ARP".  (`foundSet` is not extended here.) -/
def scanFallback (hosts : List Nat) (env : ProbeEnv)
    (st : List Nat × List ScanResult) : List ScanResult :=
  hosts.foldl
    (fun results ip =>
      if ip ∈ st.1 then results
      else
        match env.arp ip with
        | some mac =>
          if mac ≠ "" then results ++ [{ ip := ip, method := "ARP" }]
          else results
        | none => results)
    st.2

/-- Embedding of `Scan` (part_001): the active-probe phase followed, after
the full join, by the link-layer fallback phase. -/
def Scan (hosts : List Nat) (env : ProbeEnv) (order : List Nat) :
    List ScanResult :=
  scanFallback hosts env (scanPhase1 hosts env order)

/-! ## Diff Engine and History Store (scanner/history.go) -/

/-- Embedding of `ComputeDiff` (scanner/history.go).  First loop: collect
the previous addresses into `prevSet`.  Second loop: walk `current`,
recording each address in `curSet` and setting status "NEW" when the
address is not in `prevSet` (other entries are left untouched).  Third
loop: for every previous entry whose address is not in `curSet`, append a
copy with status "GONE". -/
def ComputeDiff (current previous : List ScanResult) : List ScanResult :=
  let prevSet := previous.foldl (fun s r => r.ip :: s) ([] : List Nat)
  let step := current.foldl
    (fun (acc : List ScanResult × List Nat) r =>
      (acc.1 ++ [if r.ip ∈ prevSet then r else { r with status := "NEW" }],
       r.ip :: acc.2))
    ([], [])
  previous.foldl
    (fun acc r =>
      if r.ip ∈ step.2 then acc else acc ++ [{ r with status := "GONE" }])
    step.1

/-- State-threaded rendering of `ComputeDiff`, making the in-place slice
mutation explicit: the state is the pair (current array, previous array)
and every statement of the Go function is a state transformer.  The first
and third loops only read `previous` (`gone := r` copies the struct before
its `Status` is set); the second loop writes `current[i].Status` through
the current array.  Returns (returned slice, final current array, final
previous array). -/
def ComputeDiffSt (current previous : List ScanResult) :
    List ScanResult × List ScanResult × List ScanResult :=
  let prevSet := previous.foldl (fun s r => r.ip :: s) ([] : List Nat)
  let loop2 := (List.range current.length).foldl
    (fun (st : List ScanResult × List Nat) i =>
      match st.1[i]? with
      | none => st
      | some r =>
        ((if r.ip ∈ prevSet then st.1 else st.1.set i { r with status := "NEW" }),
         r.ip :: st.2))
    (current, [])
  let ret := previous.foldl
    (fun acc r =>
      if r.ip ∈ loop2.2 then acc else acc ++ [{ r with status := "GONE" }])
    loop2.1
  (ret, loop2.1, previous)

/-- Embedding of the per-result conversion in `SaveHistory`: a `nil` open
port slice is replaced by an empty array before serialisation, and the
status field is not part of the persisted form at all. -/
def saveEntry (r : ScanResult) : historyEntry :=
  { ip := r.ip, hostname := r.hostname, mac := r.mac, vendor := r.vendor,
    method := r.method,
    openPorts := match r.openPorts with | none => [] | some ps => ps }

/-- Embedding of the pure core of `SaveHistory` (scanner/history.go): the
array of records written to `~/.localscan/last.json`.  The JSON
marshalling and file write are external effects; their observable content
is this entry list. -/
def SaveHistory (results : List ScanResult) : List historyEntry :=
  results.map saveEntry

/-- Embedding of the per-entry conversion in `LoadHistory`: the parsed
entry becomes a result whose status is the Go zero value "" and whose open
port slice is the decoded (non-nil) array. -/
def loadEntry (e : historyEntry) : ScanResult :=
  { ip := e.ip, hostname := e.hostname, mac := e.mac, vendor := e.vendor,
    method := e.method, openPorts := some e.openPorts, status := "" }

/-- Embedding of the pure core of `LoadHistory` (scanner/history.go),
reading back a previously written entry array. -/
def LoadHistory (entries : List historyEntry) : List ScanResult :=
  entries.map loadEntry

/-! ## The `main` driver (part_000) -/

/-- Embedding of the enrichment loop in `main`: hostname, MAC and vendor
are filled in from the external resolver, ARP table and vendor database;
an address missing from the ARP table gets "-" for MAC and vendor. -/
def enrich (resolve : Nat → String) (arp : Nat → Option String)
    (vend : String → String) (results : List ScanResult) : List ScanResult :=
  results.map
    (fun r =>
      match arp r.ip with
      | some mac =>
        { r with hostname := resolve r.ip, mac := mac, vendor := vend mac }
      | none => { r with hostname := resolve r.ip, mac := "-", vendor := "-" })

/-- Embedding of `sort.Slice(results, ...)` in `main`, ordering by the
numeric address value `ipToUint32` (our addresses are already numeric). -/
def sortByIP (results : List ScanResult) : List ScanResult :=
  results.insertionSort (fun a b => a.ip ≤ b.ip)

/-- Embedding of the diff branch of `main` (part_000): sort the enriched
results by address, classify them against the loaded previous results,
re-sort (the appended GONE entries arrive out of order), then persist the
non-GONE subset as the new baseline.  Returns (final result set handed to
rendering, history written back). -/
def mainDiffFlow (results previous : List ScanResult) :
    List ScanResult × List historyEntry :=
  let sorted := sortByIP results
  let diffed := sortByIP (ComputeDiff sorted previous)
  let toSave := diffed.filter (fun r => r.status ≠ "GONE")
  (diffed, SaveHistory toSave)

/-! ## Helper lemmas about the Diff Engine -/

theorem foldl_cons_ips (l : List ScanResult) (init : List Nat) :
    l.foldl (fun s r => r.ip :: s) init = (l.map (·.ip)).reverse ++ init := by
  induction l generalizing init with
  | nil => simp
  | cons a t ih => simp [List.foldl_cons, ih]

theorem foldl_classify (l : List ScanResult) (P : List Nat)
    (acc : List ScanResult × List Nat) :
    l.foldl
        (fun acc r =>
          (acc.1 ++ [if r.ip ∈ P then r else { r with status := "NEW" }],
           r.ip :: acc.2)) acc
      = (acc.1 ++ l.map (fun r => if r.ip ∈ P then r else { r with status := "NEW" }),
         (l.map (·.ip)).reverse ++ acc.2) := by
  induction l generalizing acc with
  | nil => simp
  | cons a t ih => simp [List.foldl_cons, ih]

theorem foldl_gone (l : List ScanResult) (S : List Nat) (acc : List ScanResult) :
    l.foldl
        (fun acc r =>
          if r.ip ∈ S then acc else acc ++ [{ r with status := "GONE" }]) acc
      = acc ++ (l.filter (fun r => r.ip ∉ S)).map (fun r => { r with status := "GONE" }) := by
  induction l generalizing acc with
  | nil => simp
  | cons a t ih =>
    by_cases h : a.ip ∈ S <;> simp [List.foldl_cons, ih, h]

/-- Closed form of `ComputeDiff`: the classified current entries followed by
a GONE copy of every previous entry whose address is absent from current. -/
theorem computeDiff_eq (c p : List ScanResult) :
    ComputeDiff c p
      = c.map (fun r => if r.ip ∈ p.map (·.ip) then r else { r with status := "NEW" })
        ++ (p.filter (fun r => r.ip ∉ c.map (·.ip))).map
            (fun r => { r with status := "GONE" }) := by
  unfold ComputeDiff
  simp only [foldl_cons_ips, foldl_classify, foldl_gone, List.append_nil,
    List.nil_append, List.mem_reverse]

theorem status_update_self (r : ScanResult) (s : String) (h : r.status = s) :
    { r with status := s } = r := by
  cases r; simp_all

theorem classify_ip (P : List Nat) (r : ScanResult) :
    (if r.ip ∈ P then r else { r with status := "NEW" }).ip = r.ip := by
  split <;> rfl

theorem set_append_of_length {α : Type} (A l : List α) (v : α) (n : Nat)
    (h : A.length = n) : (A ++ l).set n v = A ++ l.set 0 v := by
  subst h
  induction A with
  | nil => rfl
  | cons a t ih => simp [List.set, ih]

/-- Closed form of the second loop of `ComputeDiffSt` after `k` indices of
`current` have been processed. -/
theorem computeDiffSt_loop2 (cs : List ScanResult) (P : List Nat) :
    ∀ k, k ≤ cs.length →
      (List.range k).foldl
          (fun (st : List ScanResult × List Nat) i =>
            match st.1[i]? with
            | none => st
            | some r =>
              ((if r.ip ∈ P then st.1 else st.1.set i { r with status := "NEW" }),
               r.ip :: st.2))
          (cs, [])
        = ((cs.take k).map (fun r => if r.ip ∈ P then r else { r with status := "NEW" })
             ++ cs.drop k,
           ((cs.take k).map (·.ip)).reverse) := by
  intro k
  induction k with
  | zero => simp
  | succ k ih =>
    intro hk
    have hk' : k < cs.length := by omega
    rw [List.range_succ, List.foldl_append, ih (by omega)]
    have hA : ((cs.take k).map
        (fun r => if r.ip ∈ P then r else { r with status := "NEW" })).length = k := by
      simp [Nat.min_eq_left (le_of_lt hk')]
    have hget : (((cs.take k).map
        (fun r => if r.ip ∈ P then r else { r with status := "NEW" }))
          ++ cs.drop k)[k]? = some cs[k] := by
      rw [List.getElem?_append_right (by omega), hA, Nat.sub_self,
        List.getElem?_drop, Nat.add_zero, List.getElem?_eq_getElem hk']
    have htake : cs.take (k + 1) = cs.take k ++ [cs[k]] := by
      rw [List.take_succ, List.getElem?_eq_getElem hk']
      rfl
    have hdrop : cs.drop k = cs[k] :: cs.drop (k + 1) :=
      List.drop_eq_getElem_cons hk'
    simp only [List.foldl_cons, List.foldl_nil, hget]
    by_cases hp : cs[k].ip ∈ P
    · simp only [if_pos hp, htake, List.map_append, List.map_cons, List.map_nil,
        List.reverse_append, List.reverse_cons, List.reverse_nil]
      rw [hdrop]
      simp [if_pos hp, List.append_assoc]
    · rw [if_neg hp, set_append_of_length _ _ _ _ hA, hdrop, List.set_cons_zero]
      simp only [htake, List.map_append, List.map_cons, List.map_nil,
        List.reverse_append, List.reverse_cons, List.reverse_nil]
      simp [if_neg hp, List.append_assoc]

/-- The state-threaded and the functional embeddings of `ComputeDiff`
agree: the returned slice is `ComputeDiff`, the mutated current array holds
the classified current entries, and the previous array is untouched. -/
theorem computeDiffSt_eq (c p : List ScanResult) :
    ComputeDiffSt c p
      = (ComputeDiff c p,
         c.map (fun r => if r.ip ∈ p.map (·.ip) then r else { r with status := "NEW" }),
         p) := by
  unfold ComputeDiffSt
  simp only [foldl_cons_ips, List.append_nil]
  rw [computeDiffSt_loop2 c ((p.map (·.ip)).reverse) c.length le_rfl]
  simp only [List.take_length, List.drop_length, List.append_nil]
  rw [foldl_gone, computeDiff_eq]
  simp [List.mem_reverse, List.map_map, Function.comp, classify_ip]

theorem classify_ports (P : List Nat) (r : ScanResult) :
    (if r.ip ∈ P then r else { r with status := "NEW" }).openPorts
      = r.openPorts := by
  split <;> rfl

/-- When every current entry carries the unset scan status, the non-GONE
part of the diff output is exactly the classified current entries. -/
theorem diff_filter_nonGone (results previous : List ScanResult)
    (h : ∀ r ∈ results, r.status = "") :
    (ComputeDiff (sortByIP results) previous).filter
        (fun r => r.status ≠ "GONE")
      = (sortByIP results).map (fun r =>
          if r.ip ∈ previous.map (·.ip) then r else { r with status := "NEW" }) := by
  have hsorted : (sortByIP results).Perm results :=
    List.perm_insertionSort _ results
  rw [computeDiff_eq, List.filter_append]
  have h1 : ((sortByIP results).map (fun r =>
      if r.ip ∈ previous.map (·.ip) then r
      else { r with status := "NEW" })).filter
        (fun r => r.status ≠ "GONE")
      = (sortByIP results).map (fun r =>
          if r.ip ∈ previous.map (·.ip) then r else { r with status := "NEW" }) := by
    rw [List.filter_eq_self]
    intro a ha
    rcases List.mem_map.mp ha with ⟨r, hr, heq⟩
    have hr' : r.status = "" := h r (hsorted.mem_iff.mp hr)
    by_cases hp : r.ip ∈ previous.map (·.ip)
    · rw [if_pos hp] at heq
      subst heq
      simp [hr']
    · rw [if_neg hp] at heq
      subst heq
      simp
  have h2 : ((previous.filter
      (fun r => r.ip ∉ (sortByIP results).map (·.ip))).map
        (fun r => { r with status := "GONE" })).filter
          (fun r => r.status ≠ "GONE") = [] := by
    rw [List.filter_eq_nil_iff]
    intro a ha
    rcases List.mem_map.mp ha with ⟨r, _, heq⟩
    subst heq
    simp
  rw [h1, h2, List.append_nil]

/-- Enrichment rewrites only the hostname, MAC and vendor fields: address,
status, method and open ports come from some entry of the input. -/
theorem enrich_fields (resolve : Nat → String) (arp : Nat → Option String)
    (vend : String → String) (results : List ScanResult) :
    ∀ r ∈ enrich resolve arp vend results,
      ∃ r₀ ∈ results,
        r.ip = r₀.ip ∧ r.status = r₀.status ∧ r.openPorts = r₀.openPorts := by
  intro r hr
  unfold enrich at hr
  rcases List.mem_map.mp hr with ⟨r₀, hr₀, heq⟩
  cases ha : arp r₀.ip with
  | none =>
    rw [ha] at heq
    exact ⟨r₀, hr₀, by rw [← heq], by rw [← heq], by rw [← heq]⟩
  | some mac =>
    rw [ha] at heq
    exact ⟨r₀, hr₀, by rw [← heq], by rw [← heq], by rw [← heq]⟩

theorem enrich_map_ip (resolve : Nat → String) (arp : Nat → Option String)
    (vend : String → String) (results : List ScanResult) :
    (enrich resolve arp vend results).map (·.ip) = results.map (·.ip) := by
  unfold enrich
  rw [List.map_map]
  apply List.map_congr_left
  intro r _
  simp only [Function.comp]
  cases arp r.ip <;> rfl

/-! ## Claim theorems: Diff Engine -/

/-- C1: for every current and previous result set (current entries carrying
the unset scan status), `ComputeDiff` sets status NEW on exactly those
current entries whose address is absent from previous, appends one
synthetic GONE entry carrying the previous entry's other field values for
exactly those previous entries whose address is absent from current, and
leaves the status of entries present in both unset. -/
theorem computeDiff_classification (c p : List ScanResult)
    (h : ∀ r ∈ c, r.status = "") :
    ComputeDiff c p
        = c.map (fun r => if r.ip ∈ p.map (·.ip) then r
                          else { r with status := "NEW" })
          ++ (p.filter (fun r => r.ip ∉ c.map (·.ip))).map
              (fun r => { r with status := "GONE" })
      ∧ ∀ r ∈ ComputeDiff c p,
          r.ip ∈ p.map (·.ip) → r.ip ∈ c.map (·.ip) → r.status = "" := by
  refine ⟨computeDiff_eq c p, ?_⟩
  intro r hr hprev hcur
  rw [computeDiff_eq] at hr
  rcases List.mem_append.mp hr with hr | hr
  · rcases List.mem_map.mp hr with ⟨r₀, hr₀, heq⟩
    by_cases hp : r₀.ip ∈ p.map (·.ip)
    · rw [if_pos hp] at heq
      subst heq
      exact h r₀ hr₀
    · rw [if_neg hp] at heq
      subst heq
      exact absurd hprev hp
  · rcases List.mem_map.mp hr with ⟨r₀, hr₀, heq⟩
    have hcond := (List.mem_filter.mp hr₀).2
    simp only [decide_eq_true_eq] at hcond
    subst heq
    exact absurd hcur hcond

/-- Witness for C1 at the spec's concrete example: previous = {A, B},
current = {B, C} gives output {B unset, C NEW, A GONE}. -/
theorem computeDiff_classification_witness :
    (∀ r ∈ [({ ip := 2 } : ScanResult), { ip := 3 }], r.status = "")
      ∧ (ComputeDiff [({ ip := 2 } : ScanResult), { ip := 3 }]
            [({ ip := 1, method := "TCP" } : ScanResult), { ip := 2 }]
          = [({ ip := 2 } : ScanResult), { ip := 3 }].map
              (fun r =>
                if r.ip ∈ [({ ip := 1, method := "TCP" } : ScanResult),
                    { ip := 2 }].map (·.ip) then r
                else { r with status := "NEW" })
            ++ ([({ ip := 1, method := "TCP" } : ScanResult),
                  { ip := 2 }].filter
                  (fun r => r.ip ∉ [({ ip := 2 } : ScanResult),
                    { ip := 3 }].map (·.ip))).map
                (fun r => { r with status := "GONE" })
          ∧ ∀ r ∈ ComputeDiff [({ ip := 2 } : ScanResult), { ip := 3 }]
              [({ ip := 1, method := "TCP" } : ScanResult), { ip := 2 }],
              r.ip ∈ [({ ip := 1, method := "TCP" } : ScanResult),
                { ip := 2 }].map (·.ip) →
              r.ip ∈ [({ ip := 2 } : ScanResult), { ip := 3 }].map (·.ip) →
              r.status = "") :=
  ⟨by decide,
   computeDiff_classification [{ ip := 2 }, { ip := 3 }]
     [{ ip := 1, method := "TCP" }, { ip := 2 }] (by decide)⟩

/-- C9: the Diff Engine is pure, deterministic and idempotent: re-running
`ComputeDiff` on the same inputs yields an identical classified set (the
embedding is a function, and the Go `map`s only serve membership tests, so
map iteration order never reaches the output), and applying `ComputeDiff`
to its own output with the same previous set yields that output again. -/
theorem computeDiff_idempotent (c p : List ScanResult) :
    ComputeDiff c p = ComputeDiff c p
      ∧ ComputeDiff (ComputeDiff c p) p = ComputeDiff c p := by
  refine ⟨rfl, ?_⟩
  have hips : (ComputeDiff c p).map (·.ip)
      = c.map (·.ip)
        ++ (p.filter (fun r => r.ip ∉ c.map (·.ip))).map (·.ip) := by
    rw [computeDiff_eq, List.map_append, List.map_map, List.map_map]
    congr 1
    exact List.map_congr_left (fun r _ => classify_ip _ r)
  rw [computeDiff_eq (ComputeDiff c p) p]
  have hfilter : p.filter (fun r => r.ip ∉ (ComputeDiff c p).map (·.ip)) = [] := by
    rw [List.filter_eq_nil_iff]
    intro r hr
    simp only [decide_eq_true_eq, not_not, hips, List.mem_append]
    by_cases hc : r.ip ∈ c.map (·.ip)
    · exact Or.inl hc
    · refine Or.inr (List.mem_map.mpr ⟨r, List.mem_filter.mpr ⟨hr, ?_⟩, rfl⟩)
      simpa using hc
  have hmap : (ComputeDiff c p).map
      (fun r => if r.ip ∈ p.map (·.ip) then r else { r with status := "NEW" })
      = ComputeDiff c p := by
    have hcong : ∀ r ∈ ComputeDiff c p,
        (if r.ip ∈ p.map (·.ip) then r else { r with status := "NEW" }) = id r := by
      intro r hr
      rw [computeDiff_eq] at hr
      rcases List.mem_append.mp hr with hr | hr
      · rcases List.mem_map.mp hr with ⟨r₀, _, heq⟩
        by_cases hp : r₀.ip ∈ p.map (·.ip)
        · rw [if_pos hp] at heq
          subst heq
          rw [if_pos hp]
          rfl
        · rw [if_neg hp] at heq
          subst heq
          rw [if_neg (by simpa using hp)]
          exact status_update_self _ _ rfl
      · rcases List.mem_map.mp hr with ⟨r₀, hr₀, heq⟩
        have hr₀p : r₀ ∈ p := (List.mem_filter.mp hr₀).1
        subst heq
        rw [if_pos (List.mem_map.mpr ⟨r₀, hr₀p, rfl⟩)]
        rfl
    rw [List.map_congr_left hcong, List.map_id]
  rw [hfilter, hmap, List.map_nil, List.append_nil]

/-- C10: `ComputeDiff` never modifies its previous argument: in the
state-threaded rendering the previous array is returned untouched (every
field of every previous entry, Status included), and the GONE entries
appended to the returned set are copies of previous entries, not mutations
of them. -/
theorem computeDiffSt_frame (c p : List ScanResult) :
    (ComputeDiffSt c p).2.2 = p
      ∧ ∀ g ∈ (ComputeDiffSt c p).1.drop c.length,
          ∃ r ∈ p, g = { r with status := "GONE" } := by
  rw [computeDiffSt_eq]
  refine ⟨rfl, ?_⟩
  intro g hg
  simp only [computeDiff_eq] at hg
  rw [show c.length
      = (c.map (fun r => if r.ip ∈ p.map (·.ip) then r
          else { r with status := "NEW" })).length by simp,
    List.drop_left] at hg
  rcases List.mem_map.mp hg with ⟨r, hr, heq⟩
  exact ⟨r, (List.mem_filter.mp hr).1, heq.symm⟩

/-! ## Claim theorems: History Store -/

/-- C4: saving a non-empty result set and reloading it reproduces a result
set with identical address, method, open-port, hostname, MAC and vendor
content per entry, in the same order, with the diff status omitted; an
entry with no open ports (a `nil` slice) is persisted with an empty
open-ports array, never an absent field. -/
theorem history_round_trip (results : List ScanResult) (h : results ≠ []) :
    (LoadHistory (SaveHistory results)).length = results.length
      ∧ (∀ (i : Nat) (r : ScanResult), results[i]? = some r →
          (LoadHistory (SaveHistory results))[i]?
            = some ({ ip := r.ip, hostname := r.hostname, mac := r.mac,
                      vendor := r.vendor, method := r.method,
                      openPorts := some (r.openPorts.getD []),
                      status := "" } : ScanResult))
      ∧ ∀ r ∈ results, r.openPorts = none → (saveEntry r).openPorts = [] := by
  refine ⟨by simp [LoadHistory, SaveHistory], ?_, ?_⟩
  · intro i r hi
    simp only [LoadHistory, SaveHistory, List.map_map, List.getElem?_map, hi,
      Option.map_some]
    cases hp : r.openPorts <;>
      simp [Function.comp, loadEntry, saveEntry, hp]
  · intro r _ hp
    simp [saveEntry, hp]

/-- Witness for C4: one saved entry with a nil open-port slice round-trips
to the same content with an empty port array and unset status. -/
theorem history_round_trip_witness :
    ([({ ip := 5, method := "ICMP", status := "NEW" } : ScanResult)] ≠ [])
      ∧ ((LoadHistory (SaveHistory
            [({ ip := 5, method := "ICMP", status := "NEW" } : ScanResult)])).length
            = [({ ip := 5, method := "ICMP", status := "NEW" } : ScanResult)].length
          ∧ (∀ (i : Nat) (r : ScanResult),
              [({ ip := 5, method := "ICMP", status := "NEW" } : ScanResult)][i]?
                = some r →
              (LoadHistory (SaveHistory
                  [({ ip := 5, method := "ICMP", status := "NEW" } : ScanResult)]))[i]?
                = some ({ ip := r.ip, hostname := r.hostname, mac := r.mac,
                          vendor := r.vendor, method := r.method,
                          openPorts := some (r.openPorts.getD []),
                          status := "" } : ScanResult))
          ∧ ∀ r ∈ [({ ip := 5, method := "ICMP", status := "NEW" } : ScanResult)],
              r.openPorts = none → (saveEntry r).openPorts = []) :=
  ⟨by decide, history_round_trip [{ ip := 5, method := "ICMP", status := "NEW" }]
    (by decide)⟩

/-- C5: after a diff, the history written back as the new baseline is the
persisted form of exactly the non-GONE entries of the final result set,
and (up to the re-sort) those are exactly the classified current entries:
no previous-only (GONE) entry is ever persisted. -/
theorem mainDiff_save_no_gone (results previous : List ScanResult)
    (h : ∀ r ∈ results, r.status = "") :
    (mainDiffFlow results previous).2
        = SaveHistory ((mainDiffFlow results previous).1.filter
            (fun r => r.status ≠ "GONE"))
      ∧ ((mainDiffFlow results previous).2).Perm
          (SaveHistory (results.map (fun r =>
            if r.ip ∈ previous.map (·.ip) then r else { r with status := "NEW" }))) := by
  refine ⟨rfl, ?_⟩
  have hsorted : (sortByIP results).Perm results :=
    List.perm_insertionSort _ results
  unfold mainDiffFlow SaveHistory
  refine List.Perm.map saveEntry ?_
  refine (List.Perm.filter _ (List.perm_insertionSort _ _)).trans ?_
  rw [diff_filter_nonGone results previous h]
  exact List.Perm.map _ hsorted

/-- Witness for C5: a concrete run in which the previous set has one
continuing and one vanished address. -/
theorem mainDiff_save_no_gone_witness :
    (∀ r ∈ [({ ip := 9, method := "UDP" } : ScanResult)], r.status = "")
      ∧ ((mainDiffFlow [({ ip := 9, method := "UDP" } : ScanResult)]
            [({ ip := 7, method := "TCP" } : ScanResult), { ip := 9 }]).2
          = SaveHistory ((mainDiffFlow [({ ip := 9, method := "UDP" } : ScanResult)]
              [({ ip := 7, method := "TCP" } : ScanResult), { ip := 9 }]).1.filter
                (fun r => r.status ≠ "GONE"))
        ∧ ((mainDiffFlow [({ ip := 9, method := "UDP" } : ScanResult)]
              [({ ip := 7, method := "TCP" } : ScanResult), { ip := 9 }]).2).Perm
            (SaveHistory ([({ ip := 9, method := "UDP" } : ScanResult)].map
              (fun r => if r.ip ∈ [({ ip := 7, method := "TCP" } : ScanResult),
                  { ip := 9 }].map (·.ip) then r
                else { r with status := "NEW" })))) :=
  ⟨by decide,
   mainDiff_save_no_gone [{ ip := 9, method := "UDP" }]
     [{ ip := 7, method := "TCP" }, { ip := 9 }] (by decide)⟩

/-! ## Claim theorems: Probe Cascade -/

/-- C6: the Probe Cascade returns method ICMP whenever the liveness (ping)
step succeeds, whatever the TCP and UDP oracles answer. -/
theorem detectHost_icmp_priority (env : ProbeEnv) (ip : Nat)
    (h : env.icmp ip = true) : (detectHost env ip).1 = "ICMP" := by
  unfold detectHost
  simp [h]

/-- Witness for C6: a host that answers ping and also has an open TCP port
is still reported via ICMP. -/
theorem detectHost_icmp_priority_witness :
    ((⟨fun _ => true, fun _ _ => DialOutcome.accepted, fun _ _ => true,
        fun _ => none⟩ : ProbeEnv).icmp 7 = true)
      ∧ (detectHost
          (⟨fun _ => true, fun _ _ => DialOutcome.accepted, fun _ _ => true,
            fun _ => none⟩ : ProbeEnv) 7).1 = "ICMP" :=
  ⟨rfl, detectHost_icmp_priority _ 7 rfl⟩

/-- C8 counterexample: with ICMP succeeding, the TCP connect sweep is still
performed and the cascade's output still depends on its outcome — two runs
differing only in the TCP oracle produce different outputs (the open-port
evidence differs) even though the liveness check succeeds in both. -/
theorem detectHost_short_circuit_cex :
    "tcpProbe" ∈ (detectHostTraced
        (⟨fun _ => true,
          fun _ p => if p = 80 then DialOutcome.accepted else DialOutcome.nosignal,
          fun _ _ => false, fun _ => none⟩ : ProbeEnv) 1).2
      ∧ (detectHostTraced
          (⟨fun _ => true,
            fun _ p => if p = 80 then DialOutcome.accepted else DialOutcome.nosignal,
            fun _ _ => false, fun _ => none⟩ : ProbeEnv) 1).1
        ≠ (detectHostTraced
            (⟨fun _ => true, fun _ _ => DialOutcome.nosignal,
              fun _ _ => false, fun _ => none⟩ : ProbeEnv) 1).1 := by
  decide

/-- C8 as amended: the cascade always performs the liveness check and the
TCP connect sweep (retaining the open-port evidence); only the UDP probe is
short-circuited — once the liveness check or the TCP sweep has succeeded,
the UDP probe is not performed and the cascade's output is independent of
the UDP oracle. -/
theorem detectHost_short_circuit (env env2 : ProbeEnv) (ip : Nat)
    (hicmp : env2.icmp = env.icmp) (htcp : env2.tcp = env.tcp)
    (h : env.icmp ip = true ∨ (tcpProbe env ip).1 = true) :
    "udpProbe" ∉ (detectHostTraced env ip).2
      ∧ "icmpPing" ∈ (detectHostTraced env ip).2
      ∧ "tcpProbe" ∈ (detectHostTraced env ip).2
      ∧ detectHostTraced env2 ip = detectHostTraced env ip := by
  have htp : tcpProbe env2 ip = tcpProbe env ip := by
    unfold tcpProbe
    rw [htcp]
  unfold detectHostTraced
  rw [hicmp, htp]
  rcases h with h | h
  · simp [h]
  · by_cases hi : env.icmp ip <;> simp [hi, h]

/-- Witness for C8 as amended: ICMP succeeds, so changing only the UDP
oracle changes nothing and the UDP probe never runs. -/
theorem detectHost_short_circuit_witness :
    ((⟨fun _ => true, fun _ _ => DialOutcome.nosignal, fun _ _ => true,
        fun _ => none⟩ : ProbeEnv).icmp
      = (⟨fun _ => true, fun _ _ => DialOutcome.nosignal, fun _ _ => false,
          fun _ => none⟩ : ProbeEnv).icmp)
      ∧ ((⟨fun _ => true, fun _ _ => DialOutcome.nosignal, fun _ _ => true,
            fun _ => none⟩ : ProbeEnv).tcp
          = (⟨fun _ => true, fun _ _ => DialOutcome.nosignal, fun _ _ => false,
              fun _ => none⟩ : ProbeEnv).tcp)
      ∧ ((⟨fun _ => true, fun _ _ => DialOutcome.nosignal, fun _ _ => false,
            fun _ => none⟩ : ProbeEnv).icmp 3 = true
          ∨ (tcpProbe (⟨fun _ => true, fun _ _ => DialOutcome.nosignal,
              fun _ _ => false, fun _ => none⟩ : ProbeEnv) 3).1 = true)
      ∧ ("udpProbe" ∉ (detectHostTraced
            (⟨fun _ => true, fun _ _ => DialOutcome.nosignal, fun _ _ => false,
              fun _ => none⟩ : ProbeEnv) 3).2
          ∧ "icmpPing" ∈ (detectHostTraced
              (⟨fun _ => true, fun _ _ => DialOutcome.nosignal, fun _ _ => false,
                fun _ => none⟩ : ProbeEnv) 3).2
          ∧ "tcpProbe" ∈ (detectHostTraced
              (⟨fun _ => true, fun _ _ => DialOutcome.nosignal, fun _ _ => false,
                fun _ => none⟩ : ProbeEnv) 3).2
          ∧ detectHostTraced
              (⟨fun _ => true, fun _ _ => DialOutcome.nosignal, fun _ _ => true,
                fun _ => none⟩ : ProbeEnv) 3
            = detectHostTraced
                (⟨fun _ => true, fun _ _ => DialOutcome.nosignal, fun _ _ => false,
                  fun _ => none⟩ : ProbeEnv) 3) :=
  ⟨rfl, rfl, Or.inl rfl, detectHost_short_circuit _ _ 3 rfl rfl (Or.inl rfl)⟩

/-! ## Helper lemmas about the Address Enumerator -/

/-- Masking a 32-bit value with the CIDR mask of `32 - k` leading ones
clears its low `k` bits. -/
theorem and_mask_eq_div_mul (k c : Nat) (hk : k ≤ 32) (hc : c < 2 ^ 32) :
    c &&& (2 ^ 32 - 2 ^ k) = c / 2 ^ k * 2 ^ k := by
  have hsplit : (2 : Nat) ^ (32 - k) * 2 ^ k = 2 ^ 32 := by
    rw [← pow_add]
    congr 1
    omega
  have hm : (2 : Nat) ^ 32 - 2 ^ k = (2 ^ (32 - k) - 1) <<< k := by
    rw [Nat.shiftLeft_eq, Nat.sub_mul, one_mul, hsplit]
  have hr : c / 2 ^ k * 2 ^ k = (c >>> k) <<< k := by
    rw [Nat.shiftRight_eq_div_pow, Nat.shiftLeft_eq]
  rw [hm, hr]
  apply Nat.eq_of_testBit_eq
  intro i
  rw [Nat.testBit_land, Nat.testBit_shiftLeft, Nat.testBit_shiftLeft,
    Nat.testBit_shiftRight, Nat.testBit_two_pow_sub_one]
  by_cases hik : k ≤ i
  · by_cases hi32 : i < 32
    · have h1 : i - k < 32 - k := by omega
      have h2 : k + (i - k) = i := by omega
      simp [hik, h1, h2]
    · have h1 : ¬(i - k < 32 - k) := by omega
      have h2 : c.testBit i = false :=
        Nat.testBit_lt_two_pow
          (lt_of_lt_of_le hc (Nat.pow_le_pow_right (by norm_num) (by omega)))
      simp [hik, h1, h2]
  · simp [hik]

/-- The network base address computed by `HostsInNetwork` is the start of
the `2^(32-ones)`-aligned block holding `ip`. -/
theorem maskIP_eq (ip ones : Nat) (ho : ones ≤ 32) (hip : ip < 2 ^ 32) :
    maskIP ip ones = ip / 2 ^ (32 - ones) * 2 ^ (32 - ones) := by
  unfold maskIP maskOf
  exact and_mask_eq_div_mul (32 - ones) ip (by omega) hip

/-- Membership test of the embedded `Contains`: a 32-bit candidate is in
the network iff it lies in the same `2^(32-ones)`-aligned block as `ip`. -/
theorem netContains_iff (ip ones c : Nat) (ho : ones ≤ 32) (hip : ip < 2 ^ 32)
    (hc : c < 2 ^ 32) :
    netContains (maskIP ip ones) ones c = true
      ↔ c / 2 ^ (32 - ones) = ip / 2 ^ (32 - ones) := by
  have hpow : 0 < (2 : Nat) ^ (32 - ones) := Nat.pos_pow_of_pos _ (by norm_num)
  have hmasked : maskIP ip ones < 2 ^ 32 :=
    lt_of_le_of_lt (by rw [maskIP_eq ip ones ho hip]; exact Nat.div_mul_le_self ip _) hip
  unfold netContains maskOf
  rw [beq_iff_eq, and_mask_eq_div_mul (32 - ones) c (by omega) hc,
    and_mask_eq_div_mul (32 - ones) (maskIP ip ones) (by omega) hmasked,
    maskIP_eq ip ones ho hip, Nat.mul_div_cancel _ hpow]
  exact ⟨fun h => Nat.eq_of_mul_eq_mul_right hpow h, fun h => by rw [h]⟩

theorem hostsLoop_guard_false (netip ones c fuel : Nat)
    (h : netContains netip ones c = false) :
    hostsLoop netip ones fuel c = [] := by
  cases fuel <;> simp [hostsLoop, h]

/-- The enumeration loop started `j` addresses into the block collects
exactly the remaining addresses of the block, provided the fuel covers the
remaining iterations. -/
theorem hostsLoop_eq (ip ones : Nat) (h1 : 0 < ones) (h2 : ones < 32)
    (hip : ip < 2 ^ 32) :
    ∀ (fuel j : Nat), j < 2 ^ (32 - ones) → 2 ^ (32 - ones) - j ≤ fuel →
      hostsLoop (maskIP ip ones) ones fuel ((maskIP ip ones + j) % 2 ^ 32)
        = List.range' (maskIP ip ones + j) (2 ^ (32 - ones) - j) := by
  have hpow : 0 < (2 : Nat) ^ (32 - ones) := Nat.pos_pow_of_pos _ (by norm_num)
  have hqlt : ip / 2 ^ (32 - ones) < 2 ^ ones := by
    apply Nat.div_lt_of_lt_mul
    have h3 : (2 : Nat) ^ (32 - ones) * 2 ^ ones = 2 ^ 32 := by
      rw [← pow_add]
      congr 1
      omega
    omega
  have hBeq := maskIP_eq ip ones (by omega) hip
  have hsum : ip / 2 ^ (32 - ones) * 2 ^ (32 - ones) + 2 ^ (32 - ones)
      = (ip / 2 ^ (32 - ones) + 1) * 2 ^ (32 - ones) := by ring
  have hblock : maskIP ip ones + 2 ^ (32 - ones) ≤ 2 ^ 32 := by
    rw [hBeq]
    have h3 : (ip / 2 ^ (32 - ones) + 1) * 2 ^ (32 - ones)
        ≤ 2 ^ ones * 2 ^ (32 - ones) := Nat.mul_le_mul_right _ (by omega)
    have h4 : (2 : Nat) ^ ones * 2 ^ (32 - ones) = 2 ^ 32 := by
      rw [← pow_add]
      congr 1
      omega
    omega
  intro fuel
  induction fuel with
  | zero =>
    intro j hj hf
    omega
  | succ fuel ih =>
    intro j hj hf
    have hmod : (maskIP ip ones + j) % 2 ^ 32 = maskIP ip ones + j :=
      Nat.mod_eq_of_lt (by omega)
    have hcont : netContains (maskIP ip ones) ones (maskIP ip ones + j) = true := by
      rw [netContains_iff ip ones _ (by omega) hip (by omega), hBeq]
      have h3 : ip / 2 ^ (32 - ones) * 2 ^ (32 - ones) + j
          = j + 2 ^ (32 - ones) * (ip / 2 ^ (32 - ones)) := by ring
      rw [h3, Nat.add_mul_div_left _ _ hpow, Nat.div_eq_of_lt hj, Nat.zero_add]
    rw [hmod]
    simp only [hostsLoop, hcont, if_true]
    by_cases hlast : j + 1 < 2 ^ (32 - ones)
    · have htail := ih (j + 1) hlast (by omega)
      have hinc : incIP (maskIP ip ones + j) = (maskIP ip ones + (j + 1)) % 2 ^ 32 := by
        unfold incIP
        congr 1
      rw [hinc, htail,
        show 2 ^ (32 - ones) - j = (2 ^ (32 - ones) - (j + 1)) + 1 by omega,
        List.range'_succ, Nat.add_assoc]
    · have hj1 : j + 1 = 2 ^ (32 - ones) := by omega
      have hguard : netContains (maskIP ip ones) ones
          (incIP (maskIP ip ones + j)) = false := by
        rw [Bool.eq_false_iff]
        intro hcon
        by_cases hwrap : maskIP ip ones + 2 ^ (32 - ones) < 2 ^ 32
        · have hval : incIP (maskIP ip ones + j)
              = maskIP ip ones + 2 ^ (32 - ones) := by
            unfold incIP
            rw [Nat.mod_eq_of_lt (by omega)]
            omega
          rw [hval, netContains_iff ip ones _ (by omega) hip (by omega), hBeq,
            hsum, Nat.mul_div_cancel _ hpow] at hcon
          omega
        · have hwrap' : maskIP ip ones + 2 ^ (32 - ones) = 2 ^ 32 := by omega
          have hval : incIP (maskIP ip ones + j) = 0 := by
            unfold incIP
            rw [show maskIP ip ones + j + 1 = 2 ^ 32 by omega]
            exact Nat.mod_self _
          rw [hval, netContains_iff ip ones _ (by omega) hip (by norm_num),
            Nat.zero_div] at hcon
          have hB0 : maskIP ip ones = 0 := by
            rw [hBeq, ← hcon, Nat.zero_mul]
          have : (2 : Nat) ^ (32 - ones) < 2 ^ 32 :=
            Nat.pow_lt_pow_right (by norm_num) (by omega)
          omega
      rw [hostsLoop_guard_false _ _ _ _ hguard,
        show 2 ^ (32 - ones) - j = 1 by omega]
      simp

/-! ## Claim theorems: Address Enumerator -/

/-- C2: for 0 < prefixlen < 32 the enumeration returns exactly
`2^(32-prefixlen) - 2` addresses, in ascending numeric order, which are
precisely the addresses the network contains minus the network address
`maskIP ip ones` (the first of the block) and the broadcast address (the
last); prefix length 0 or 32 returns no addresses. -/
theorem hostsInNetwork_spec (ip ones : Nat) (hip : ip < 2 ^ 32)
    (hones : ones ≤ 32) :
    ((0 < ones ∧ ones < 32) →
        HostsInNetwork ip ones
            = List.range' (maskIP ip ones + 1) (2 ^ (32 - ones) - 2)
          ∧ (HostsInNetwork ip ones).length = 2 ^ (32 - ones) - 2
          ∧ List.Pairwise (· < ·) (HostsInNetwork ip ones)
          ∧ ∀ x, x ∈ HostsInNetwork ip ones ↔
              (x < 2 ^ 32 ∧ netContains (maskIP ip ones) ones x = true
                ∧ x ≠ maskIP ip ones
                ∧ x ≠ maskIP ip ones + (2 ^ (32 - ones) - 1)))
      ∧ ((ones = 0 ∨ ones = 32) → HostsInNetwork ip ones = []) := by
  constructor
  · rintro ⟨h1, h2⟩
    have hpow : 0 < (2 : Nat) ^ (32 - ones) := Nat.pos_pow_of_pos _ (by norm_num)
    have hpow2 : 2 ≤ (2 : Nat) ^ (32 - ones) := by
      calc (2 : Nat) = 2 ^ 1 := (pow_one 2).symm
        _ ≤ 2 ^ (32 - ones) := Nat.pow_le_pow_right (by norm_num) (by omega)
    have hBeq := maskIP_eq ip ones (by omega) hip
    have hB32 : maskIP ip ones < 2 ^ 32 :=
      lt_of_le_of_lt (by rw [hBeq]; exact Nat.div_mul_le_self ip _) hip
    have hqlt : ip / 2 ^ (32 - ones) < 2 ^ ones := by
      apply Nat.div_lt_of_lt_mul
      have h3 : (2 : Nat) ^ (32 - ones) * 2 ^ ones = 2 ^ 32 := by
        rw [← pow_add]
        congr 1
        omega
      omega
    have hsum : ip / 2 ^ (32 - ones) * 2 ^ (32 - ones) + 2 ^ (32 - ones)
        = (ip / 2 ^ (32 - ones) + 1) * 2 ^ (32 - ones) := by ring
    have hblock : maskIP ip ones + 2 ^ (32 - ones) ≤ 2 ^ 32 := by
      rw [hBeq]
      have h3 : (ip / 2 ^ (32 - ones) + 1) * 2 ^ (32 - ones)
          ≤ 2 ^ ones * 2 ^ (32 - ones) := Nat.mul_le_mul_right _ (by omega)
      have h4 : (2 : Nat) ^ ones * 2 ^ (32 - ones) = 2 ^ 32 := by
        rw [← pow_add]
        congr 1
        omega
      omega
    have hloop : hostsLoop (maskIP ip ones) ones (2 ^ 32) (maskIP ip ones)
        = List.range' (maskIP ip ones) (2 ^ (32 - ones)) := by
      have h0 := hostsLoop_eq ip ones h1 h2 hip (2 ^ 32) 0 (by omega)
        (by omega)
      rw [Nat.add_zero, Nat.mod_eq_of_lt hB32, Nat.sub_zero] at h0
      exact h0
    have hmain : HostsInNetwork ip ones
        = List.range' (maskIP ip ones + 1) (2 ^ (32 - ones) - 2) := by
      unfold HostsInNetwork
      rw [if_neg (by omega)]
      simp only [hloop, List.length_range']
      by_cases hsz : 2 ^ (32 - ones) > 2
      · rw [if_pos hsz,
          show (2 : Nat) ^ (32 - ones) = (2 ^ (32 - ones) - 1) + 1 by omega,
          List.range'_succ]
        rw [show ((2 : Nat) ^ (32 - ones) - 1) = (2 ^ (32 - ones) - 2) + 1 by omega,
          List.range'_concat]
        rw [show List.drop 1
            ((maskIP ip ones
                :: (List.range' (maskIP ip ones + 1) (2 ^ (32 - ones) - 2)
                    ++ [maskIP ip ones + 1 + 1 * (2 ^ (32 - ones) - 2)])))
          = List.range' (maskIP ip ones + 1) (2 ^ (32 - ones) - 2)
              ++ [maskIP ip ones + 1 + 1 * (2 ^ (32 - ones) - 2)] from rfl]
        exact List.dropLast_concat
      · rw [if_neg hsz, show (2 : Nat) ^ (32 - ones) - 2 = 0 by omega]
        rfl
    refine ⟨hmain, by rw [hmain, List.length_range'], by
      rw [hmain]; exact List.pairwise_lt_range' _ _ 1 (by norm_num), ?_⟩
    intro x
    rw [hmain, List.mem_range'_1]
    constructor
    · rintro ⟨hlo, hhi⟩
      have hdiv : x / 2 ^ (32 - ones) = ip / 2 ^ (32 - ones) := by
        apply Nat.div_eq_of_lt_le
        · omega
        · have h3 : (ip / 2 ^ (32 - ones) + 1) * 2 ^ (32 - ones)
              = maskIP ip ones + 2 ^ (32 - ones) := by
            rw [hBeq]
            ring
          omega
      refine ⟨by omega,
        (netContains_iff ip ones x (by omega) hip (by omega)).mpr hdiv,
        by omega, by omega⟩
    · rintro ⟨hx32, hcon, hne1, hne2⟩
      have hdiv := (netContains_iff ip ones x (by omega) hip hx32).mp hcon
      have hmod := Nat.div_add_mod x (2 ^ (32 - ones))
      have hrem : x % 2 ^ (32 - ones) < 2 ^ (32 - ones) := Nat.mod_lt _ hpow
      have hx : x = maskIP ip ones + x % 2 ^ (32 - ones) := by
        rw [hBeq]
        have h3 : 2 ^ (32 - ones) * (x / 2 ^ (32 - ones))
            = ip / 2 ^ (32 - ones) * 2 ^ (32 - ones) := by
          rw [hdiv]
          ring
        omega
      omega
  · intro h0
    unfold HostsInNetwork
    rw [if_pos h0]

/-- Witness for C2 at 192.168.1.7/29: the six usable hosts of
192.168.1.0/29 in ascending order. -/
theorem hostsInNetwork_spec_witness :
    (3232235783 < 2 ^ 32 ∧ 29 ≤ 32)
      ∧ (((0 < 29 ∧ 29 < 32) →
            HostsInNetwork 3232235783 29
                = List.range' (maskIP 3232235783 29 + 1) (2 ^ (32 - 29) - 2)
              ∧ (HostsInNetwork 3232235783 29).length = 2 ^ (32 - 29) - 2
              ∧ List.Pairwise (· < ·) (HostsInNetwork 3232235783 29)
              ∧ ∀ x, x ∈ HostsInNetwork 3232235783 29 ↔
                  (x < 2 ^ 32 ∧ netContains (maskIP 3232235783 29) 29 x = true
                    ∧ x ≠ maskIP 3232235783 29
                    ∧ x ≠ maskIP 3232235783 29 + (2 ^ (32 - 29) - 1)))
          ∧ ((29 = 0 ∨ 29 = 32) → HostsInNetwork 3232235783 29 = [])) :=
  ⟨⟨by norm_num, by norm_num⟩,
   hostsInNetwork_spec 3232235783 29 (by norm_num) (by norm_num)⟩

/-- Sanity evaluation: the embedded enumerator on 192.168.1.7/29 yields
192.168.1.1 through 192.168.1.6. -/
theorem hostsInNetwork_eval :
    HostsInNetwork 3232235783 29
      = [3232235777, 3232235778, 3232235779, 3232235780, 3232235781,
         3232235782] := by
  decide

/-! ## Helper lemmas about the Scan Orchestrator -/

/-- The open ports reported by the TCP sweep are the accepted ports of the
fixed probe list, in probe-list order. -/
theorem tcpProbe_ports (env : ProbeEnv) (ip : Nat) :
    ((tcpProbe env ip).2).getD []
      = tcpPorts.filter (fun p => env.tcp ip p == DialOutcome.accepted) := by
  suffices h : ∀ (ports : List Nat) (acc : Bool × Option (List Nat)),
      ((ports.foldl
          (fun acc port =>
            match env.tcp ip port with
            | .accepted => (true, some (acc.2.getD [] ++ [port]))
            | .refused => (true, acc.2)
            | .nosignal => acc)
          acc).2).getD []
        = acc.2.getD []
          ++ ports.filter (fun p => env.tcp ip p == DialOutcome.accepted) by
    have h0 := h tcpPorts (false, none)
    simpa [tcpProbe] using h0
  intro ports
  induction ports with
  | nil => simp
  | cons p t ih =>
    intro acc
    cases hc : env.tcp ip p <;>
      simp [List.foldl_cons, hc, ih, List.filter_cons, List.append_assoc]

/-- Whatever method wins, the cascade's open-port list follows the fixed
probe order: it is a subsequence of `tcpPorts`. -/
theorem detectHost_ports_sublist (env : ProbeEnv) (ip : Nat) :
    ((detectHost env ip).2.getD []).Sublist tcpPorts := by
  unfold detectHost
  by_cases h1 : env.icmp ip <;> by_cases h2 : (tcpProbe env ip).1 <;>
    by_cases h3 : udpProbe env ip <;>
      simp [h1, h2, h3, tcpProbe_ports, List.filter_sublist]

/-- Invariant carried through the active-probe phase: distinct result
addresses, every result address registered in `foundSet`, unset statuses,
and probe-ordered port lists. -/
def ScanInv (st : List Nat × List ScanResult) : Prop :=
  (st.2.map (·.ip)).Nodup
    ∧ (∀ r ∈ st.2, r.ip ∈ st.1)
    ∧ (∀ r ∈ st.2, r.status = "")
    ∧ ∀ r ∈ st.2, (r.openPorts.getD []).Sublist tcpPorts

theorem scanPhase1_foldl_inv (hosts : List Nat) (env : ProbeEnv) :
    ∀ (order : List Nat) (st : List Nat × List ScanResult), ScanInv st →
      ScanInv (order.foldl
        (fun (st : List Nat × List ScanResult) idx =>
          match hosts[idx]? with
          | none => st
          | some ip =>
            let res := detectHost env ip
            if res.1 ≠ "" then
              if ip ∈ st.1 then st
              else (ip :: st.1,
                    st.2 ++ [{ ip := ip, method := res.1, openPorts := res.2 }])
            else st)
        st) := by
  intro order
  induction order with
  | nil => exact fun st h => h
  | cons idx t ih =>
    intro st hst
    rw [List.foldl_cons]
    apply ih
    cases hh : hosts[idx]? with
    | none => simpa [hh] using hst
    | some ip =>
      simp only [hh]
      by_cases hm : (detectHost env ip).1 ≠ ""
      · rw [if_pos hm]
        by_cases hf : ip ∈ st.1
        · rw [if_pos hf]
          exact hst
        · obtain ⟨h1, h2, h3, h4⟩ := hst
          rw [if_neg hf]
          refine ⟨?_, ?_, ?_, ?_⟩ <;> dsimp only
          · rw [List.map_append]
            refine List.Nodup.append h1 (by simp) ?_
            intro a ha hb
            simp only [List.map_cons, List.map_nil, List.mem_singleton] at hb
            subst hb
            rcases List.mem_map.mp ha with ⟨r, hr, heq⟩
            exact hf (heq ▸ h2 r hr)
          · intro r hr
            rcases List.mem_append.mp hr with hr | hr
            · exact List.mem_cons_of_mem _ (h2 r hr)
            · simp only [List.mem_singleton] at hr
              subst hr
              exact List.mem_cons_self _ _
          · intro r hr
            rcases List.mem_append.mp hr with hr | hr
            · exact h3 r hr
            · simp only [List.mem_singleton] at hr
              subst hr
              rfl
          · intro r hr
            rcases List.mem_append.mp hr with hr | hr
            · exact h4 r hr
            · simp only [List.mem_singleton] at hr
              subst hr
              exact detectHost_ports_sublist env ip
      · rw [if_neg hm]
        exact hst

/-- The active-probe phase satisfies the scan invariant. -/
theorem scanPhase1_inv (hosts order : List Nat) (env : ProbeEnv) :
    ScanInv (scanPhase1 hosts env order) :=
  scanPhase1_foldl_inv hosts env order ([], [])
    ⟨by simp, by simp, by simp, by simp⟩

theorem scanFallback_foldl_inv (env : ProbeEnv) (found : List Nat) :
    ∀ (hs : List Nat) (acc : List ScanResult),
      hs.Nodup → (acc.map (·.ip)).Nodup →
      (∀ r ∈ acc, r.ip ∈ found ∨ r.ip ∉ hs) →
      (∀ r ∈ acc, r.status = "") →
      (∀ r ∈ acc, (r.openPorts.getD []).Sublist tcpPorts) →
      (((hs.foldl
          (fun results ip =>
            if ip ∈ found then results
            else
              match env.arp ip with
              | some mac =>
                if mac ≠ "" then results ++ [{ ip := ip, method := "ARP" }]
                else results
              | none => results)
          acc).map (·.ip)).Nodup
        ∧ (∀ r ∈ hs.foldl
            (fun results ip =>
              if ip ∈ found then results
              else
                match env.arp ip with
                | some mac =>
                  if mac ≠ "" then results ++ [{ ip := ip, method := "ARP" }]
                  else results
                | none => results)
            acc, r.status = "")
        ∧ ∀ r ∈ hs.foldl
            (fun results ip =>
              if ip ∈ found then results
              else
                match env.arp ip with
                | some mac =>
                  if mac ≠ "" then results ++ [{ ip := ip, method := "ARP" }]
                  else results
                | none => results)
            acc, (r.openPorts.getD []).Sublist tcpPorts) := by
  intro hs
  induction hs with
  | nil => exact fun acc _ h1 _ h3 h4 => ⟨h1, h3, h4⟩
  | cons ip t ih =>
    intro acc hnd h1 h2 h3 h4
    rw [List.foldl_cons]
    have hnd' : t.Nodup := (List.nodup_cons.mp hnd).2
    have hip : ip ∉ t := (List.nodup_cons.mp hnd).1
    have h2' : ∀ r ∈ acc, r.ip ∈ found ∨ r.ip ∉ t := by
      intro r hr
      exact (h2 r hr).imp id (fun hna ht => hna (List.mem_cons_of_mem _ ht))
    by_cases hf : ip ∈ found
    · rw [if_pos hf]
      exact ih acc hnd' h1 h2' h3 h4
    · rw [if_neg hf]
      cases ha : env.arp ip with
      | none =>
        dsimp only
        exact ih acc hnd' h1 h2' h3 h4
      | some mac =>
        dsimp only
        by_cases hmac : mac ≠ ""
        · rw [if_pos hmac]
          apply ih _ hnd'
          · rw [List.map_append]
            refine List.Nodup.append h1 (by simp) ?_
            intro a haa hb
            simp only [List.map_cons, List.map_nil, List.mem_singleton] at hb
            subst hb
            rcases List.mem_map.mp haa with ⟨r, hr, heq⟩
            rcases h2 r hr with hof | hot
            · exact hf (heq ▸ hof)
            · exact hot (heq ▸ List.mem_cons_self _ _)
          · intro r hr
            rcases List.mem_append.mp hr with hr | hr
            · exact h2' r hr
            · simp only [List.mem_singleton] at hr
              subst hr
              exact Or.inr hip
          · intro r hr
            rcases List.mem_append.mp hr with hr | hr
            · exact h3 r hr
            · simp only [List.mem_singleton] at hr
              subst hr
              rfl
          · intro r hr
            rcases List.mem_append.mp hr with hr | hr
            · exact h4 r hr
            · simp only [List.mem_singleton] at hr
              subst hr
              simp
        · rw [if_neg hmac]
          exact ih acc hnd' h1 h2' h3 h4

/-- The full scan (active probing plus link-layer fallback) yields distinct
addresses, unset statuses and probe-ordered port lists, for any processing
order and any oracle answers, provided the enumerated addresses are
distinct (which `HostsInNetwork` guarantees). -/
theorem Scan_inv (hosts order : List Nat) (env : ProbeEnv) (h : hosts.Nodup) :
    ((Scan hosts env order).map (·.ip)).Nodup
      ∧ (∀ r ∈ Scan hosts env order, r.status = "")
      ∧ ∀ r ∈ Scan hosts env order, (r.openPorts.getD []).Sublist tcpPorts := by
  obtain ⟨h1, h2, h3, h4⟩ := scanPhase1_inv hosts order env
  exact scanFallback_foldl_inv env (scanPhase1 hosts env order).1 hosts
    (scanPhase1 hosts env order).2 h (by exact h1)
    (fun r hr => Or.inl (h2 r hr)) h3 h4

/-! ## Claim theorems: Scan Orchestrator -/

/-- C3: with distinct enumerated addresses (as `HostsInNetwork` produces)
each address has at most one live (non-GONE) entry in every result set:
after the active-probe phase, after the link-layer fallback phase (where
every entry is live), and among the live entries of the post-diff set —
whatever the worker interleaving, the probe oracles, the previous set and
the enrichment oracles. -/
theorem scan_at_most_one_live (hosts order : List Nat) (env : ProbeEnv)
    (previous : List ScanResult) (resolve : Nat → String)
    (arp2 : Nat → Option String) (vend : String → String)
    (h : hosts.Nodup) :
    ((scanPhase1 hosts env order).2.map (·.ip)).Nodup
      ∧ ((Scan hosts env order).map (·.ip)).Nodup
      ∧ (((mainDiffFlow (enrich resolve arp2 vend (Scan hosts env order))
            previous).1.filter (fun r => r.status ≠ "GONE")).map (·.ip)).Nodup := by
  obtain ⟨hnd, hst, _⟩ := Scan_inv hosts order env h
  refine ⟨(scanPhase1_inv hosts order env).1, hnd, ?_⟩
  have hE : ∀ r ∈ enrich resolve arp2 vend (Scan hosts env order),
      r.status = "" := by
    intro r hr
    obtain ⟨r₀, hr₀, _, hs, _⟩ := enrich_fields resolve arp2 vend _ r hr
    rw [hs]
    exact hst r₀ hr₀
  have hperm : ((mainDiffFlow (enrich resolve arp2 vend (Scan hosts env order))
      previous).1.filter (fun r => r.status ≠ "GONE")).Perm
      ((sortByIP (enrich resolve arp2 vend (Scan hosts env order))).map
        (fun r => if r.ip ∈ previous.map (·.ip) then r
                  else { r with status := "NEW" })) := by
    unfold mainDiffFlow
    refine (List.Perm.filter _ (List.perm_insertionSort _ _)).trans ?_
    rw [diff_filter_nonGone _ previous hE]
  have hrhs : (((sortByIP (enrich resolve arp2 vend (Scan hosts env order))).map
      (fun r => if r.ip ∈ previous.map (·.ip) then r
                else { r with status := "NEW" })).map (·.ip)).Nodup := by
    rw [List.map_map]
    have hcong : (sortByIP (enrich resolve arp2 vend (Scan hosts env order))).map
        ((·.ip) ∘ fun r => if r.ip ∈ previous.map (·.ip) then r
          else { r with status := "NEW" })
        = (sortByIP (enrich resolve arp2 vend (Scan hosts env order))).map
            (·.ip) :=
      List.map_congr_left (fun r _ => classify_ip _ r)
    rw [hcong]
    have hp1 : ((enrich resolve arp2 vend (Scan hosts env order)).map
        (·.ip)).Perm ((sortByIP (enrich resolve arp2 vend
          (Scan hosts env order))).map (·.ip)) :=
      List.Perm.map _ (List.perm_insertionSort _ _).symm
    refine List.Nodup.perm ?_ hp1
    rw [enrich_map_ip]
    exact hnd
  exact List.Nodup.perm hrhs (List.Perm.map _ hperm.symm)

/-- Witness for C3: two addresses forced to succeed via TCP (port 22
refused) plus a previous set with a vanished address. -/
theorem scan_at_most_one_live_witness :
    ([1, 2] : List Nat).Nodup
      ∧ (((scanPhase1 [1, 2]
            (⟨fun _ => false,
              fun _ p => if p = 22 then DialOutcome.refused else DialOutcome.nosignal,
              fun _ _ => false, fun _ => none⟩ : ProbeEnv) [0, 1]).2.map
              (·.ip)).Nodup
          ∧ ((Scan [1, 2]
              (⟨fun _ => false,
                fun _ p => if p = 22 then DialOutcome.refused else DialOutcome.nosignal,
                fun _ _ => false, fun _ => none⟩ : ProbeEnv) [0, 1]).map
                (·.ip)).Nodup
          ∧ (((mainDiffFlow
                (enrich (fun _ => "host") (fun _ => none) (fun _ => "vend")
                  (Scan [1, 2]
                    (⟨fun _ => false,
                      fun _ p => if p = 22 then DialOutcome.refused
                                 else DialOutcome.nosignal,
                      fun _ _ => false, fun _ => none⟩ : ProbeEnv) [0, 1]))
                [({ ip := 3, method := "UDP" } : ScanResult)]).1.filter
                  (fun r => r.status ≠ "GONE")).map (·.ip)).Nodup) :=
  ⟨by decide,
   scan_at_most_one_live [1, 2] [0, 1]
     ⟨fun _ => false,
      fun _ p => if p = 22 then DialOutcome.refused else DialOutcome.nosignal,
      fun _ _ => false, fun _ => none⟩
     [{ ip := 3, method := "UDP" }] (fun _ => "host") (fun _ => none)
     (fun _ => "vend") (by decide)⟩

/-! ## Claim theorems: port order of the rendered set -/

/-- C7 counterexample: a host with TCP ports 445 and 139 both open is
handed to the rendering collaborators with open-port list [445, 139] —
probe order, not ascending numeric order. -/
theorem ports_probe_order_cex :
    ((mainDiffFlow
        (enrich (fun _ => "") (fun _ => none) (fun _ => "")
          (Scan [5]
            (⟨fun _ => true,
              fun _ p => if p = 445 ∨ p = 139 then DialOutcome.accepted
                         else DialOutcome.nosignal,
              fun _ _ => false, fun _ => none⟩ : ProbeEnv) [0])) []).1).map
        (·.openPorts) = [some [445, 139]]
      ∧ ¬ List.Pairwise (· < ·) [445, 139] := by
  refine ⟨by decide, by decide⟩

/-- C7 as amended: every entry of the post-diff set handed to rendering
has its open-port list in the fixed probe order — a subsequence of
`tcpPorts`, which is not numerically ascending — provided the loaded
previous entries (which feed the GONE entries) do as well.  The renderers
sort a copy of the list only at formatting time. -/
theorem ports_probe_order (hosts order : List Nat) (env : ProbeEnv)
    (previous : List ScanResult) (resolve : Nat → String)
    (arp2 : Nat → Option String) (vend : String → String)
    (hprev : ∀ r ∈ previous, (r.openPorts.getD []).Sublist tcpPorts)
    (hhosts : hosts.Nodup) :
    ∀ r ∈ (mainDiffFlow (enrich resolve arp2 vend (Scan hosts env order))
        previous).1,
      (r.openPorts.getD []).Sublist tcpPorts := by
  obtain ⟨_, _, hports⟩ := Scan_inv hosts order env hhosts
  intro r hr
  have hr' : r ∈ ComputeDiff
      (sortByIP (enrich resolve arp2 vend (Scan hosts env order))) previous := by
    unfold mainDiffFlow at hr
    exact (List.perm_insertionSort _ _).mem_iff.mp hr
  rw [computeDiff_eq] at hr'
  rcases List.mem_append.mp hr' with hr' | hr'
  · rcases List.mem_map.mp hr' with ⟨r₀, hr₀, heq⟩
    have hr₀E : r₀ ∈ enrich resolve arp2 vend (Scan hosts env order) :=
      (List.perm_insertionSort _ _).mem_iff.mp hr₀
    obtain ⟨r₁, hr₁, _, _, hop⟩ := enrich_fields resolve arp2 vend _ r₀ hr₀E
    have : r.openPorts = r₁.openPorts := by
      rw [← heq, classify_ports, hop]
    rw [this]
    exact hports r₁ hr₁
  · rcases List.mem_map.mp hr' with ⟨r₀, hr₀, heq⟩
    have : r.openPorts = r₀.openPorts := by rw [← heq]
    rw [this]
    exact hprev r₀ (List.mem_filter.mp hr₀).1

/-- Witness for C7 as amended: the counterexample scenario again — the
port list [445, 139] is a subsequence of the probe list. -/
theorem ports_probe_order_witness :
    (∀ r ∈ ([] : List ScanResult), (r.openPorts.getD []).Sublist tcpPorts)
      ∧ ([5] : List Nat).Nodup
      ∧ ∀ r ∈ (mainDiffFlow
          (enrich (fun _ => "") (fun _ => none) (fun _ => "")
            (Scan [5]
              (⟨fun _ => true,
                fun _ p => if p = 445 ∨ p = 139 then DialOutcome.accepted
                           else DialOutcome.nosignal,
                fun _ _ => false, fun _ => none⟩ : ProbeEnv) [0])) []).1,
          (r.openPorts.getD []).Sublist tcpPorts :=
  ⟨by decide, by decide,
   ports_probe_order [5] [0]
     ⟨fun _ => true,
      fun _ p => if p = 445 ∨ p = 139 then DialOutcome.accepted
                 else DialOutcome.nosignal,
      fun _ _ => false, fun _ => none⟩
     [] (fun _ => "") (fun _ => none) (fun _ => "") (by decide) (by decide)⟩

end LocalScan
